import Mathlib

/-!
Verification development for the WFC tileset pre-generator
(`_claude_scripts/procedural/generate_lvl0_wfc_tileset.py`).

The Python source is shallowly embedded as executable Lean definitions:

* a 128x128 grid of cells (`FLOOR = 0`, `WALL = 1`) is a `List (List Nat)`;
  numpy slice assignments become take/replicate/drop row surgery and
  single-cell writes become `List.set`;
* the seeded `np.random.RandomState` is abstracted as an oracle stream
  `RSrc : Nat -> Nat` together with a cursor position; every call to
  `randint` / `choice` / `random()` consumes exactly one oracle value and
  maps it into the required range with `%` (probability weights of `choice`
  only shape the distribution, never the set of reachable values, so they
  are dropped);
* float threshold comparisons in `_ensure_floor_percentage_range`
  (`0.68`, `0.75` against `floor_count / 16384`) are modelled exactly by
  integer cross-multiplication: grid fractions are dyadic rationals, the
  nearest-double roundings of `0.68` and `0.75` lie far closer to the exact
  rationals than any dyadic `k/16384` can, so the integer comparisons decide
  exactly as the floating point ones; the truncating `int(...)` conversions
  for `needed` are reproduced with natural division;
* the unbounded `while stack:` loop of `_generate_maze_base` runs on fuel
  `maze_fuel`, which is proved sufficient (the loop result is always `some`);
* Python dicts are association lists where an insertion prepends a binding
  and lookup takes the first match (identical lookup semantics, and the
  number of distinct keys agrees with the Python dict's size).
-/

set_option maxRecDepth 8000
set_option maxHeartbeats 4000000

/-- Floor cell value (matching the Godot tile constants in the source). -/
def FLOOR : Nat := 0

/-- Wall cell value. -/
def WALL : Nat := 1

/-- A maze grid: 128 rows of 128 cells, `grid[y][x]`. -/
abbrev Grid := List (List Nat)

/-- Oracle stream abstracting the seeded `np.random.RandomState`. -/
abbrev RSrc := Nat → Nat

/-- Draw a value in `[0, n)`, advancing the cursor; models `rng.randint(n)`
and the index drawn by `rng.choice` over `n` options. -/
def rand_below (s : RSrc) (pos n : Nat) : Nat × Nat := (s pos % n, pos + 1)

/-- Draw a value in `[lo, hi)`; models `rng.randint(lo, hi)`. -/
def rand_int (s : RSrc) (pos lo hi : Nat) : Nat × Nat := (lo + s pos % (hi - lo), pos + 1)

/-- Draw a Bernoulli outcome; models `rng.random() < pct/100`. -/
def rand_chance (s : RSrc) (pos pct : Nat) : Bool × Nat := (decide (s pos % 100 < pct), pos + 1)

/-- Read `grid[y][x]` (out-of-range reads default to `WALL`; the source only
reads in bounds). -/
def get_cell (g : Grid) (y x : Nat) : Nat := (g.getD y []).getD x WALL

/-- Write `grid[y][x] = v` (out-of-range writes are dropped, as the source
always bounds-checks its single-cell writes). -/
def set_cell (g : Grid) (y x v : Nat) : Grid := g.set y ((g.getD y []).set x v)

/-- Row part of a numpy slice assignment `row[x : x+w] = v`. -/
def set_row_range (row : List Nat) (x w v : Nat) : List Nat :=
  row.take x ++ List.replicate (min w (row.length - x)) v ++ row.drop (x + w)

/-- Helper for `carve_rect`: rewrite the rows whose index lies in `[y, y+h)`. -/
def carve_rect_go (x y w h v : Nat) : List (List Nat) → Nat → List (List Nat)
  | [], _ => []
  | r :: rs, i =>
    (if y ≤ i ∧ i < y + h then set_row_range r x w v else r) :: carve_rect_go x y w h v rs (i + 1)

/-- Rectangular slice assignment `grid[y:y+h, x:x+w] = v`. -/
def carve_rect (g : Grid) (x y w h v : Nat) : Grid := carve_rect_go x y w h v g 0

/-- The 128x128 all-`WALL` grid created at the start of `generate_maze`
(`np.full((128, 128), WALL)`). -/
def initial_grid : Grid := List.replicate 128 (List.replicate 128 WALL)

/-- Horizontal corridor leg of `_carve_corridor`: for `x` in `[xs, xe]` and
`w` in `[0, width)`, bounds-checked write `grid[y + w, x] = FLOOR`. -/
def h_leg (g : Grid) (y xs xe width : Nat) : Grid :=
  (List.range' xs (xe + 1 - xs)).foldl (fun g x =>
    (List.range width).foldl (fun g w =>
      if y + w < 128 ∧ x < 128 then set_cell g (y + w) x FLOOR else g) g) g

/-- Vertical corridor leg of `_carve_corridor`: for `y` in `[ys, ye]` and
`w` in `[0, width)`, bounds-checked write `grid[y, x + w] = FLOOR`. -/
def v_leg (g : Grid) (x ys ye width : Nat) : Grid :=
  (List.range' ys (ye + 1 - ys)).foldl (fun g y =>
    (List.range width).foldl (fun g w =>
      if y < 128 ∧ x + w < 128 then set_cell g y (x + w) FLOOR else g) g) g

/-- `BackroomsMazeGenerator._carve_corridor`: pick a width in `{1, 2, 3}`
(the `choice([1,2,3], p=...)` draw), then an L-shaped corridor, horizontal
leg first when `rng.random() < 0.5`. -/
def carve_corridor (s : RSrc) (pos : Nat) (g : Grid) (x1 y1 x2 y2 : Nat) : Grid × Nat :=
  let (wi, pos) := rand_below s pos 3
  let width := wi + 1
  let (hf, pos) := rand_chance s pos 50
  if hf then
    let g := h_leg g y1 (min x1 x2) (max x1 x2) width
    let g := v_leg g x2 (min y1 y2) (max y1 y2) width
    (g, pos)
  else
    let g := v_leg g x1 (min y1 y2) (max y1 y2) width
    let g := h_leg g y2 (min x1 x2) (max x1 x2) width
    (g, pos)

/-- A room record `(center_x, center_y, width, height)` as collected by
`_generate_varied_rooms`. -/
abbrev Room := Nat × Nat × Nat × Nat

/-- Size draw of one room: the five-way `size_category` choice followed by
the category's `randint` width/height draws. -/
def room_dims (s : RSrc) (pos : Nat) : (Nat × Nat) × Nat :=
  let (cat, pos) := rand_below s pos 5
  if cat = 0 then
    let (w, pos) := rand_int s pos 3 6
    let (h, pos) := rand_int s pos 3 6
    ((w, h), pos)
  else if cat = 1 then
    let (w, pos) := rand_int s pos 5 10
    let (h, pos) := rand_int s pos 5 10
    ((w, h), pos)
  else if cat = 2 then
    let (w, pos) := rand_int s pos 8 16
    let (h, pos) := rand_int s pos 8 16
    ((w, h), pos)
  else if cat = 3 then
    let (w, pos) := rand_int s pos 12 24
    let (h, pos) := rand_int s pos 12 24
    ((w, h), pos)
  else
    let (w, pos) := rand_int s pos 20 35
    let (h, pos) := rand_int s pos 20 35
    ((w, h), pos)

/-- `BackroomsMazeGenerator._generate_varied_rooms`: carve `n` rooms of
varied size at positions `randint(2, max(3, 128 - dim - 2))`, collecting the
room records. -/
def generate_varied_rooms (s : RSrc) (pos : Nat) (g : Grid) (n : Nat) : Grid × List Room × Nat :=
  (List.range n).foldl (fun st _ =>
    let (g, rooms, pos) := st
    let ((w, h), pos) := room_dims s pos
    let (x, pos) := rand_int s pos 2 (max 3 (128 - w - 2))
    let (y, pos) := rand_int s pos 2 (max 3 (128 - h - 2))
    let g := carve_rect g x y w h FLOOR
    (g, rooms ++ [(x + w / 2, y + h / 2, w, h)], pos)) (g, [], pos)

/-- `BackroomsMazeGenerator._connect_rooms_naturally`: corridor between each
pair of consecutive room centers, then `min 5 (n / 3)` extra corridors
between two distinct randomly drawn rooms (the `choice(n, size=2,
replace=False)` pair is modelled as an index draw below `n` and a second
draw below `n - 1` skipped past the first). -/
def connect_rooms_naturally (s : RSrc) (pos : Nat) (g : Grid) (rooms : List Room) : Grid × Nat :=
  if rooms.length < 2 then (g, pos)
  else
    let st := (List.range (rooms.length - 1)).foldl (fun st i =>
      let (g, pos) := st
      let (x1, y1, _, _) := rooms.getD i (0, 0, 0, 0)
      let (x2, y2, _, _) := rooms.getD (i + 1) (0, 0, 0, 0)
      carve_corridor s pos g x1 y1 x2 y2) (g, pos)
    (List.range (min 5 (rooms.length / 3))).foldl (fun st _ =>
      let (g, pos) := st
      let (i, pos) := rand_below s pos rooms.length
      let (j0, pos) := rand_below s pos (rooms.length - 1)
      let j := if j0 < i then j0 else j0 + 1
      let (x1, y1, _, _) := rooms.getD i (0, 0, 0, 0)
      let (x2, y2, _, _) := rooms.getD j (0, 0, 0, 0)
      carve_corridor s pos g x1 y1 x2 y2) st

/-- `BackroomsMazeGenerator._add_random_corridors` with the only density
used, `0.1`: `int(128 * 128 * 0.1 / 20) = 81` corridors between random
endpoints drawn by `randint(0, 127)`. -/
def add_random_corridors (s : RSrc) (pos : Nat) (g : Grid) : Grid × Nat :=
  (List.range 81).foldl (fun st _ =>
    let (g, pos) := st
    let (x1, pos) := rand_below s pos 127
    let (y1, pos) := rand_below s pos 127
    let (x2, pos) := rand_below s pos 127
    let (y2, pos) := rand_below s pos 127
    carve_corridor s pos g x1 y1 x2 y2) (g, pos)

/-- `BackroomsMazeGenerator._carve_rooms_in_maze`: `n` rooms with
`randint(5, 15)` sides carved on top of the maze. -/
def carve_rooms_in_maze (s : RSrc) (pos : Nat) (g : Grid) (n : Nat) : Grid × Nat :=
  (List.range n).foldl (fun st _ =>
    let (g, pos) := st
    let (w, pos) := rand_int s pos 5 15
    let (h, pos) := rand_int s pos 5 15
    let (x, pos) := rand_int s pos 2 (max 3 (128 - w - 2))
    let (y, pos) := rand_int s pos 2 (max 3 (128 - h - 2))
    (carve_rect g x y w h FLOOR, pos)) (g, pos)

/-- Floor count of the 16x16 block at `(x, y)`:
`np.sum(grid[y:min(y+16,128), x:min(x+16,128)] == FLOOR)`. -/
def region_floor_count (g : Grid) (y x : Nat) : Nat :=
  (((g.drop y).take (min (y + 16) 128 - y)).map (fun r =>
    ((r.drop x).take (min (x + 16) 128 - x)).countP (fun c => c == FLOOR))).sum

/-- `BackroomsMazeGenerator._carve_mini_maze`: `randint(4, 10)` short
straight segments of length `randint(2, 6)` at random offsets inside the
`w x h` region at `(sx, sy)`, horizontal when `rng.random() < 0.5`. -/
def carve_mini_maze (s : RSrc) (pos : Nat) (g : Grid) (sx sy w h : Nat) : Grid × Nat :=
  let (n, pos) := rand_int s pos 4 10
  (List.range n).foldl (fun st _ =>
    let (g, pos) := st
    let (r1, pos) := rand_below s pos (w - 1)
    let x1 := sx + r1
    let (r2, pos) := rand_below s pos (h - 1)
    let y1 := sy + r2
    let (len, pos) := rand_int s pos 2 6
    let (b, pos) := rand_chance s pos 50
    if b then
      ((List.range len).foldl (fun g dx =>
        if x1 + dx < 128 ∧ y1 < 128 then set_cell g y1 (x1 + dx) FLOOR else g) g, pos)
    else
      ((List.range len).foldl (fun g dy =>
        if x1 < 128 ∧ y1 + dy < 128 then set_cell g (y1 + dy) x1 FLOOR else g) g, pos)) (g, pos)

/-- `BackroomsMazeGenerator._fill_empty_areas_with_maze`: every 16x16 block
that holds fewer than 20 floor cells receives a mini maze with probability
`0.4` (the chance draw happens only for sparse blocks, as in the source). -/
def fill_empty_areas_with_maze (s : RSrc) (pos : Nat) (g : Grid) : Grid × Nat :=
  ((List.range 8).map (· * 16)).foldl (fun st y =>
    ((List.range 8).map (· * 16)).foldl (fun st x =>
      let (g, pos) := st
      if region_floor_count g y x < 20 then
        let (b, pos) := rand_chance s pos 40
        if b then carve_mini_maze s pos g x y 16 16 else (g, pos)
      else (g, pos)) st) (g, pos)

/-- Total floor count `np.sum(grid == FLOOR)`. -/
def floor_count (g : Grid) : Nat := (g.map (fun r => r.countP (fun c => c == FLOOR))).sum

/-- Write through `Int` coordinates (the backtracker works on signed
offsets; accepted coordinates are always nonnegative). -/
def set_cell_i (g : Grid) (y x : Int) (v : Nat) : Grid := set_cell g y.toNat x.toNat v

/-- The four 2-step direction offsets `(dx, dy)` of `_generate_maze_base`. -/
def base_directions : List (Int × Int) := [(0, -2), (0, 2), (-2, 0), (2, 0)]

/-- Unvisited in-bounds neighbors of `(x, y)`, in direction order, as the
4-tuples `(nx, ny, dx, dy)` the source collects. -/
def base_neighbors (visited : Finset (Int × Int)) (x y : Int) : List (Int × Int × Int × Int) :=
  base_directions.filterMap (fun d =>
    let nx := x + d.1
    let ny := y + d.2
    if 0 ≤ nx ∧ nx < 128 ∧ 0 ≤ ny ∧ ny < 128 ∧ (nx, ny) ∉ visited then
      some (nx, ny, d.1, d.2)
    else none)

/-- The `while stack:` loop of `_generate_maze_base`, on fuel. Each
iteration peeks the stack top; with unvisited neighbors it carves the
chosen neighbor and the connecting cell and pushes, otherwise it pops. -/
def maze_base_loop (s : RSrc) :
    Nat → Nat → Finset (Int × Int) → List (Int × Int) → Grid → Option (Grid × Nat)
  | 0, _, _, _, _ => none
  | fuel + 1, pos, visited, stack, grid =>
    match stack with
    | [] => some (grid, pos)
    | (x, y) :: rest =>
      let nbrs := base_neighbors visited x y
      if nbrs.length = 0 then maze_base_loop s fuel pos visited rest grid
      else
        let (idx, pos) := rand_below s pos nbrs.length
        let (nx, ny, dx, dy) := nbrs.getD idx (0, 0, 0, 0)
        let grid := set_cell_i grid ny nx FLOOR
        let grid := set_cell_i grid (y + dy / 2) (x + dx / 2) FLOOR
        maze_base_loop s fuel pos (insert (nx, ny) visited) ((nx, ny) :: (x, y) :: rest) grid

/-- Fuel that always suffices for `maze_base_loop` (proved below): two steps
per lattice cell plus the initial stack entry and one to finish. -/
def maze_fuel : Nat := 2 * (128 * 128) + 2

/-- The lattice of in-bounds backtracker cells, used by the termination
measure of `maze_base_loop`. -/
def all_cells : Finset (Int × Int) := (Finset.Icc 0 127) ×ˢ (Finset.Icc 0 127)

/-- `BackroomsMazeGenerator._generate_maze_base` up to the fuel wrapper:
draw the even start cell, carve it, seed stack and visited set, run the
loop. -/
def maze_base_opt (s : RSrc) (pos : Nat) (grid : Grid) : Option (Grid × Nat) :=
  let (sxn, pos) := rand_below s pos 63
  let (syn, pos) := rand_below s pos 63
  let sx : Int := (sxn * 2 : Nat)
  let sy : Int := (syn * 2 : Nat)
  let grid := set_cell_i grid sy sx FLOOR
  maze_base_loop s maze_fuel pos {(sx, sy)} [(sx, sy)] grid

/-- `_generate_maze_base` as a total function; the fallback is never taken
(see the termination theorem for `maze_base_opt`). -/
def generate_maze_base (s : RSrc) (pos : Nat) (grid : Grid) : Grid × Nat :=
  (maze_base_opt s pos grid).getD (grid, pos)

/-- First-match neighbor walling in `_ensure_floor_percentage_range`: the
`for (dy, dx) in [(0,1),(1,0),(0,-1),(-1,0)]` loop that walls the first
in-bounds floor neighbor and breaks. -/
def wall_first_neighbor (g : Grid) : List (Int × Int) → Grid
  | [] => g
  | (ny, nx) :: rest =>
    if 0 ≤ ny ∧ ny < 128 ∧ 0 ≤ nx ∧ nx < 128 ∧ get_cell g ny.toNat nx.toNat = FLOOR then
      set_cell g ny.toNat nx.toNat WALL
    else wall_first_neighbor g rest

/-- `BackroomsMazeGenerator._ensure_floor_percentage_range` with the only
targets used, `min_target = 0.68` and `max_target = 0.75`. The float
comparisons and the truncations `int((target - pct) * total)` are modelled
exactly by integer arithmetic (see the header note); `needed` is computed
once from the initial count, exactly as in the source. -/
def ensure_floor_percentage_range (s : RSrc) (pos : Nat) (g : Grid) : Grid × Nat :=
  let fc := floor_count g
  if 100 * fc < 68 * 16384 then
    let needed := (68 * 16384 - 100 * fc) / 100
    (List.range needed).foldl (fun st _ =>
      let (g, pos) := st
      let (x, pos) := rand_int s pos 1 126
      let (y, pos) := rand_int s pos 1 126
      let (len, pos) := rand_int s pos 2 5
      let (b, pos) := rand_chance s pos 50
      if b then
        ((List.range len).foldl (fun g dx =>
          if x + dx < 128 then set_cell g y (x + dx) FLOOR else g) g, pos)
      else
        ((List.range len).foldl (fun g dy =>
          if y + dy < 128 then set_cell g (y + dy) x FLOOR else g) g, pos)) (g, pos)
  else if 75 * 16384 < 100 * fc then
    let needed := (100 * fc - 75 * 16384) / 100
    (List.range needed).foldl (fun st _ =>
      let (g, pos) := st
      let (x, pos) := rand_int s pos 1 126
      let (y, pos) := rand_int s pos 1 126
      if get_cell g y x = FLOOR then
        let g := set_cell g y x WALL
        let (b, pos) := rand_chance s pos 30
        if b then
          (wall_first_neighbor g
            [((y : Int), (x : Int) + 1), ((y : Int) + 1, (x : Int)),
             ((y : Int), (x : Int) - 1), ((y : Int) - 1, (x : Int))], pos)
        else (g, pos)
      else (g, pos)) (g, pos)
  else (g, pos)

/-- Zero-padded 3-digit counter formatting, `f"maze_{n:03d}"` suffix. -/
def format3 (n : Nat) : String :=
  if n < 10 then "00" ++ toString n
  else if n < 100 then "0" ++ toString n
  else toString n

/-- A named maze (`Maze128`: name plus 128x128 grid). -/
structure Maze where
  name : String
  grid : Grid
deriving DecidableEq

/-- `BackroomsMazeGenerator.generate_maze`: all-wall grid, three-way
strategy choice (`room_focused`, `maze_focused`, `hybrid` in source order),
then the mandatory density pass and the counter-derived name. -/
def generate_maze (s : RSrc) (pos ctr : Nat) : Maze × Nat :=
  let g0 := initial_grid
  let (strat, pos) := rand_below s pos 3
  let (g, pos) :=
    if strat = 0 then
      let (nr, pos) := rand_int s pos 10 18
      let (g, rooms, pos) := generate_varied_rooms s pos g0 nr
      let (g, pos) := connect_rooms_naturally s pos g rooms
      add_random_corridors s pos g
    else if strat = 1 then
      let (g, pos) := generate_maze_base s pos g0
      let (nr, pos) := rand_int s pos 4 8
      carve_rooms_in_maze s pos g nr
    else
      let (nr, pos) := rand_int s pos 6 12
      let (g, _rooms, pos) := generate_varied_rooms s pos g0 nr
      fill_empty_areas_with_maze s pos g
  let (g, pos) := ensure_floor_percentage_range s pos g
  ({ name := "maze_" ++ format3 ctr, grid := g }, pos)

/-- Helper for `generate_mazes`: run the generator `n` times, threading the
oracle cursor and the maze counter. -/
def generate_mazes_go (s : RSrc) : Nat → Nat → Nat → List Maze
  | 0, _, _ => []
  | n + 1, pos, ctr =>
    let (m, pos) := generate_maze s pos ctr
    m :: generate_mazes_go s n pos (ctr + 1)

/-- The `generate-mazes` loop: a fresh generator (counter 0, cursor 0)
producing `count` mazes in order. -/
def generate_mazes (s : RSrc) (count : Nat) : List Maze := generate_mazes_go s count 0 0

/-- Zero-padded 4-digit tile-id formatting, `f"..._tile_{tile_id:04d}"`:
four decimal digits below 10000 (the only range the source reaches), the
plain decimal representation beyond. -/
def format4 (n : Nat) : String :=
  if n < 10000 then
    String.mk [Nat.digitChar (n / 1000), Nat.digitChar (n / 100 % 10),
      Nat.digitChar (n / 10 % 10), Nat.digitChar (n % 10)]
  else Nat.repr n

/-- One tile record as emitted by `subsample_maze_to_tiles` (the JSON
`edges` sub-object is flattened into the four edge fields; the constant
float `weight = 1.0` is the natural `1`). -/
structure Tile where
  name : String
  source_maze : String
  source_position : Nat × Nat
  pattern : List (List Nat)
  north : List Nat
  south : List Nat
  east : List Nat
  west : List Nat
  weight : Nat
deriving DecidableEq

/-- Python `range(0, stop, step)` for positive `step` (the source never
passes a non-positive stride; `step = 0`, a `ValueError` in Python, is the
empty range here). -/
def py_range_up (stop step : Nat) : List Nat :=
  (List.range ((stop + step - 1) / step)).map (· * step)

/-- The `(x, y)` window offsets visited by `subsample_maze_to_tiles`
(`y` outer, `x` inner, both `range(0, 128 - 8 + 1, stride)`). -/
def tile_offsets (stride : Nat) : List (Nat × Nat) :=
  (py_range_up (128 - 8 + 1) stride).flatMap (fun y =>
    (py_range_up (128 - 8 + 1) stride).map (fun x => (x, y)))

/-- The 8x8 window `maze.grid[y:y+8, x:x+8]` as a list of rows. -/
def extract_pattern (g : Grid) (y x : Nat) : List (List Nat) :=
  ((g.drop y).take 8).map (fun r => (r.drop x).take 8)

/-- Build the tile record at window `(x, y)` with sequential id `i`:
pattern, name, and the four edge signatures `pattern[0]`, `pattern[7]`,
`[row[7] for row in pattern]`, `[row[0] for row in pattern]`. -/
def mk_tile (nm : String) (i : Nat) (xy : Nat × Nat) (g : Grid) : Tile :=
  let p := extract_pattern g xy.2 xy.1
  { name := nm ++ "_tile_" ++ format4 i
    source_maze := nm
    source_position := xy
    pattern := p
    north := p.getD 0 []
    south := p.getD 7 []
    east := p.map (fun r => r.getD 7 WALL)
    west := p.map (fun r => r.getD 0 WALL)
    weight := 1 }

/-- `subsample_maze_to_tiles`: one tile per window offset, with the
sequential `tile_id` produced by the enumeration. -/
def subsample_maze_to_tiles (m : Maze) (stride : Nat) : List Tile :=
  (tile_offsets stride).enum.map (fun p => mk_tile m.name p.1 p.2 m.grid)

/-- The four directions of the compatibility computation. -/
inductive Dir where
  | north
  | south
  | east
  | west
deriving DecidableEq

/-- The edge signature of a tile on a given side. -/
def edge_of (t : Tile) : Dir → List Nat
  | .north => t.north
  | .south => t.south
  | .east => t.east
  | .west => t.west

/-- The facing side: a tile's edge in direction `d` must match the
candidate's edge on `opposite d`. -/
def opposite : Dir → Dir
  | .north => .south
  | .south => .north
  | .east => .west
  | .west => .east

/-- Lookup in a Python-dict model: an association list where an insertion
prepends a binding and lookup takes the first (most recent) match. -/
def dict_get {κ α : Type} [DecidableEq κ] : List (κ × α) → κ → Option α
  | [], _ => none
  | (k, v) :: m, k2 => if k = k2 then some v else dict_get m k2

/-- Lookup with a default, modelling `dict.get(key, default)`. -/
def dict_getD {κ α : Type} [DecidableEq κ] (m : List (κ × α)) (k : κ) (d : α) : α :=
  (dict_get m k).getD d

/-- One direction's `edge_index` dictionary from
`compute_compatibility_matrix`: edge value to the list of names of the
tiles carrying that edge on side `d`, appended in tile order. -/
def build_edge_index (tiles : List Tile) (d : Dir) : List (List Nat × List String) :=
  tiles.foldl (fun m t => (edge_of t d, dict_getD m (edge_of t d) [] ++ [t.name]) :: m) []

/-- `compute_compatibility_matrix`: for every tile, the four entries
`"name:dir" -> edge_index[opposite dir].get(own edge in dir, [])`, with the
string keys modelled as `(name, dir)` pairs. -/
def compute_compatibility_matrix (tiles : List Tile) : List ((String × Dir) × List String) :=
  let idxN := build_edge_index tiles Dir.north
  let idxS := build_edge_index tiles Dir.south
  let idxE := build_edge_index tiles Dir.east
  let idxW := build_edge_index tiles Dir.west
  tiles.foldl (fun m t =>
    ((t.name, Dir.west), dict_getD idxE (edge_of t Dir.west) []) ::
    ((t.name, Dir.east), dict_getD idxW (edge_of t Dir.east) []) ::
    ((t.name, Dir.south), dict_getD idxN (edge_of t Dir.south) []) ::
    ((t.name, Dir.north), dict_getD idxS (edge_of t Dir.north) []) :: m) []

/-- The compatibility list stored under key `(name, d)`, empty when the key
is absent. -/
def compat_getD (m : List ((String × Dir) × List String)) (k : String × Dir) : List String :=
  (dict_get m k).getD []

/-- The value `compute_compatibility_matrix` stores for tile `t` in
direction `d`: the opposite direction's index looked up at `t`'s own edge
in `d` (a proof-side name for the four stored expressions). -/
def compat_entry_value (idxN idxS idxE idxW : List (List Nat × List String)) (t : Tile) :
    Dir → List String
  | .north => dict_getD idxS (edge_of t Dir.north) []
  | .south => dict_getD idxN (edge_of t Dir.south) []
  | .east => dict_getD idxW (edge_of t Dir.east) []
  | .west => dict_getD idxE (edge_of t Dir.west) []

/-- The pure payload written by `subsample_tiles_command`: pooled tiles,
compatibility map and the metadata counters. -/
structure TilesetOutput where
  tiles : List Tile
  compatibility : List ((String × Dir) × List String)
  tile_count : Nat
  tile_size : Nat
  stride_used : Nat
  source_mazes : Nat

/-- The successful path of `subsample_tiles_command` after loading: pool
the tiles of every maze in file order, compute compatibility, assemble the
output object. -/
def subsample_tiles_run (mazes : List Maze) (stride : Nat) : TilesetOutput :=
  let all_tiles := mazes.foldl (fun acc m => acc ++ subsample_maze_to_tiles m stride) []
  { tiles := all_tiles
    compatibility := compute_compatibility_matrix all_tiles
    tile_count := all_tiles.length
    tile_size := 8
    stride_used := stride
    source_mazes := mazes.length }

/-- `subsample_tiles_command` with the filesystem abstracted: `none` models
a missing maze directory, `some []` an existing directory whose `*.npy`
glob is empty, and `some mazes` the loaded grids in sorted file order. The
boolean records whether the command printed an `ERROR` line and returned
early; the `Option` result is the output file (nothing is written on the
two error paths). -/
def subsample_tiles_command (maze_dir : Option (List Maze)) (stride : Nat) :
    Option TilesetOutput × Bool :=
  match maze_dir with
  | none => (none, true)
  | some [] => (none, true)
  | some mazes => (some (subsample_tiles_run mazes stride), false)

/-- Well-formedness of a loaded maze grid: 128 rows of 128 cells. -/
def grid_wf (g : Grid) : Prop := g.length = 128 ∧ ∀ r ∈ g, r.length = 128

/-- A cell value is one of the two tile constants. -/
def valid_cell (c : Nat) : Prop := c = FLOOR ∨ c = WALL

/-- Every stored cell of the grid is `FLOOR` or `WALL`. -/
def valid_grid (g : Grid) : Prop := ∀ row ∈ g, ∀ c ∈ row, valid_cell c

/-- Oracle block carving one 34x34 room at grid offset `(2 + gx, 2 + gy)`:
category `huge`, width and height draws hitting 34. -/
def room_block (gx gy : Nat) : List Nat := [4, 14, 14, gx, gy]

/-- Draw sequence for the floor-band counterexample: `hybrid` strategy,
11 rooms (nine 34x34 in a touching 3x3 block, one 17x21 and one 19x20 in
the right margin), for exactly `9 * 1156 + 357 + 380 = 11141` floor cells;
every later draw reads the default `99`, so each sparse 16x16 block skips
its mini maze and the normalizer loop body never runs (`needed = 0`). -/
def seqA : List Nat :=
  [2, 5]
  ++ room_block 0 0 ++ room_block 34 0 ++ room_block 68 0
  ++ room_block 0 34 ++ room_block 34 34 ++ room_block 68 34
  ++ room_block 0 68 ++ room_block 34 68 ++ room_block 68 68
  ++ [3, 5, 9, 102, 0] ++ [3, 7, 8, 102, 28]

/-- The counterexample oracle stream. -/
def oracleA : RSrc := fun i => seqA.getD i 99

/-- A second, arbitrary oracle stream used by witnesses. -/
def oracleB : RSrc := fun _ => 7

/-- An in-band witness grid: 90 all-floor rows over 38 all-wall rows,
11520 floor cells out of 16384 (about 70.3 percent). -/
def grid_band : Grid :=
  List.replicate 90 (List.replicate 128 FLOOR) ++ List.replicate 38 (List.replicate 128 WALL)

/-- A concrete all-wall witness maze. -/
def maze_w : Maze := { name := "w", grid := initial_grid }

/-- A concrete one-cell witness tile with all edges `[FLOOR]`. -/
def tile_a : Tile :=
  { name := "a", source_maze := "m", source_position := (0, 0), pattern := [[0]]
    north := [0], south := [0], east := [0], west := [0], weight := 1 }

/-- A second witness tile, same edges, different name. -/
def tile_b : Tile :=
  { name := "b", source_maze := "m", source_position := (0, 0), pattern := [[1]]
    north := [0], south := [0], east := [0], west := [0], weight := 1 }

/-! ## Generic lemmas -/

/-- A fold preserves any invariant its step preserves. -/
theorem foldl_preserve {α β : Type} (P : α → Prop) (f : α → β → α) :
    ∀ (l : List β) (a : α), (∀ x b, P x → P (f x b)) → P a → P (l.foldl f a)
  | [], _, _, ha => ha
  | b :: l, a, h, ha => foldl_preserve P f l (f a b) h (h a b ha)

/-- A defaulted list read is a list element or the default. -/
theorem getD_mem_or_eq {α : Type} (l : List α) (i : Nat) (d : α) :
    l.getD i d ∈ l ∨ l.getD i d = d := by
  by_cases h : i < l.length
  · left
    rw [List.getD_eq_getElem l d h]
    exact List.getElem_mem h
  · right
    exact List.getD_eq_default l d (Nat.le_of_not_lt h)

/-! ## Cell-value invariant (claim C8 machinery) -/

theorem valid_cell_floor : valid_cell FLOOR := Or.inl rfl

theorem valid_cell_wall : valid_cell WALL := Or.inr rfl

theorem valid_grid_set_cell {g : Grid} {v : Nat} (hg : valid_grid g) (hv : valid_cell v)
    (y x : Nat) : valid_grid (set_cell g y x v) := by
  intro row hrow c hc
  rcases List.mem_or_eq_of_mem_set hrow with h | h
  · exact hg row h c hc
  · subst h
    rcases List.mem_or_eq_of_mem_set hc with h2 | h2
    · rcases getD_mem_or_eq g y [] with h3 | h3
      · exact hg _ h3 c h2
      · rw [h3] at h2
        cases h2
    · rw [h2]
      exact hv

theorem valid_row_set_range {row : List Nat} {v : Nat} {x w : Nat}
    (h : ∀ c ∈ row, valid_cell c) (hv : valid_cell v) :
    ∀ c ∈ set_row_range row x w v, valid_cell c := by
  intro c hc
  unfold set_row_range at hc
  rcases List.mem_append.1 hc with h1 | h1
  · rcases List.mem_append.1 h1 with h2 | h2
    · exact h c (List.mem_of_mem_take h2)
    · rw [List.eq_of_mem_replicate h2]
      exact hv
  · exact h c (List.mem_of_mem_drop h1)

theorem valid_grid_carve_rect_go {v : Nat} (hv : valid_cell v) (x y w h : Nat) :
    ∀ (g : List (List Nat)) (i : Nat), valid_grid g → valid_grid (carve_rect_go x y w h v g i)
  | [], _, _ => by
    intro row hrow
    simp [carve_rect_go] at hrow
  | r :: rs, i, hg => by
    intro row hrow c hc
    simp only [carve_rect_go, List.mem_cons] at hrow
    rcases hrow with h1 | h1
    · subst h1
      split at hc
      · exact valid_row_set_range (fun c hc => hg r (List.mem_cons_self r rs) c hc) hv c hc
      · exact hg r (List.mem_cons_self r rs) c hc
    · exact valid_grid_carve_rect_go hv x y w h rs (i + 1)
        (fun row hrow c hc => hg row (List.mem_cons_of_mem r hrow) c hc) row h1 c hc

theorem valid_grid_carve_rect {g : Grid} {v : Nat} (hg : valid_grid g) (hv : valid_cell v)
    (x y w h : Nat) : valid_grid (carve_rect g x y w h v) :=
  valid_grid_carve_rect_go hv x y w h g 0 hg

theorem valid_grid_h_leg {g : Grid} (hg : valid_grid g) (y xs xe width : Nat) :
    valid_grid (h_leg g y xs xe width) := by
  unfold h_leg
  apply foldl_preserve valid_grid _ _ _ _ hg
  intro g1 x h1
  apply foldl_preserve valid_grid _ _ _ _ h1
  intro g2 w h2
  split
  · exact valid_grid_set_cell h2 valid_cell_floor _ _
  · exact h2

theorem valid_grid_v_leg {g : Grid} (hg : valid_grid g) (x ys ye width : Nat) :
    valid_grid (v_leg g x ys ye width) := by
  unfold v_leg
  apply foldl_preserve valid_grid _ _ _ _ hg
  intro g1 y h1
  apply foldl_preserve valid_grid _ _ _ _ h1
  intro g2 w h2
  split
  · exact valid_grid_set_cell h2 valid_cell_floor _ _
  · exact h2

theorem valid_grid_carve_corridor {g : Grid} (hg : valid_grid g) (s : RSrc)
    (pos x1 y1 x2 y2 : Nat) : valid_grid (carve_corridor s pos g x1 y1 x2 y2).1 := by
  unfold carve_corridor
  simp only [rand_below, rand_chance]
  split
  · exact valid_grid_v_leg (valid_grid_h_leg hg _ _ _ _) _ _ _ _
  · exact valid_grid_h_leg (valid_grid_v_leg hg _ _ _ _) _ _ _ _

theorem option_getD_valid (o : Option (Grid × Nat)) (fb : Grid × Nat)
    (h : ∀ r, o = some r → valid_grid r.1) (hfb : valid_grid fb.1) :
    valid_grid (o.getD fb).1 := by
  cases o with
  | none => exact hfb
  | some r => exact h r rfl

theorem valid_grid_varied_rooms {g : Grid} (hg : valid_grid g) (s : RSrc) (pos n : Nat) :
    valid_grid (generate_varied_rooms s pos g n).1 := by
  unfold generate_varied_rooms
  apply foldl_preserve (fun st : Grid × List Room × Nat => valid_grid st.1) _ _ _ _ hg
  intro st b hst
  obtain ⟨g1, rooms1, pos1⟩ := st
  obtain ⟨⟨w, h⟩, pos2⟩ := room_dims s pos1
  simp only [rand_int]
  exact valid_grid_carve_rect hst valid_cell_floor _ _ _ _

theorem valid_grid_connect_rooms {g : Grid} (hg : valid_grid g) (s : RSrc) (pos : Nat)
    (rooms : List Room) : valid_grid (connect_rooms_naturally s pos g rooms).1 := by
  unfold connect_rooms_naturally
  split
  · exact hg
  · dsimp only
    apply foldl_preserve (fun st : Grid × Nat => valid_grid st.1)
    · intro st b hst
      obtain ⟨g1, pos1⟩ := st
      simp only [rand_below]
      obtain ⟨x1, y1, _, _⟩ := rooms.getD (s pos1 % rooms.length) (0, 0, 0, 0)
      obtain ⟨x2, y2, _, _⟩ := rooms.getD
        (if s (pos1 + 1) % (rooms.length - 1) < s pos1 % rooms.length then
          s (pos1 + 1) % (rooms.length - 1) else s (pos1 + 1) % (rooms.length - 1) + 1)
        (0, 0, 0, 0)
      exact valid_grid_carve_corridor hst s _ _ _ _ _
    · apply foldl_preserve (fun st : Grid × Nat => valid_grid st.1) _ _ _ _ hg
      intro st i hst
      obtain ⟨g1, pos1⟩ := st
      obtain ⟨x1, y1, _, _⟩ := rooms.getD i (0, 0, 0, 0)
      obtain ⟨x2, y2, _, _⟩ := rooms.getD (i + 1) (0, 0, 0, 0)
      exact valid_grid_carve_corridor hst s _ _ _ _ _

theorem valid_grid_add_random_corridors {g : Grid} (hg : valid_grid g) (s : RSrc) (pos : Nat) :
    valid_grid (add_random_corridors s pos g).1 := by
  unfold add_random_corridors
  apply foldl_preserve (fun st : Grid × Nat => valid_grid st.1) _ _ _ _ hg
  intro st b hst
  obtain ⟨g1, pos1⟩ := st
  simp only [rand_below]
  exact valid_grid_carve_corridor hst s _ _ _ _ _

theorem valid_grid_carve_rooms_in_maze {g : Grid} (hg : valid_grid g) (s : RSrc) (pos n : Nat) :
    valid_grid (carve_rooms_in_maze s pos g n).1 := by
  unfold carve_rooms_in_maze
  apply foldl_preserve (fun st : Grid × Nat => valid_grid st.1) _ _ _ _ hg
  intro st b hst
  obtain ⟨g1, pos1⟩ := st
  simp only [rand_int]
  exact valid_grid_carve_rect hst valid_cell_floor _ _ _ _

theorem valid_grid_carve_mini_maze {g : Grid} (hg : valid_grid g) (s : RSrc)
    (pos sx sy w h : Nat) : valid_grid (carve_mini_maze s pos g sx sy w h).1 := by
  unfold carve_mini_maze
  simp only [rand_int]
  apply foldl_preserve (fun st : Grid × Nat => valid_grid st.1) _ _ _ _ hg
  intro st b hst
  split
  · apply foldl_preserve valid_grid _ _ _ _ hst
    intro g2 dx h2
    split
    · exact valid_grid_set_cell h2 valid_cell_floor _ _
    · exact h2
  · apply foldl_preserve valid_grid _ _ _ _ hst
    intro g2 dy h2
    split
    · exact valid_grid_set_cell h2 valid_cell_floor _ _
    · exact h2

theorem valid_grid_fill_empty {g : Grid} (hg : valid_grid g) (s : RSrc) (pos : Nat) :
    valid_grid (fill_empty_areas_with_maze s pos g).1 := by
  unfold fill_empty_areas_with_maze
  apply foldl_preserve (fun st : Grid × Nat => valid_grid st.1) _ _ _ _ hg
  intro st y hst
  apply foldl_preserve (fun st : Grid × Nat => valid_grid st.1) _ _ _ _ hst
  intro st2 x hst2
  obtain ⟨g1, pos1⟩ := st2
  simp only [rand_chance]
  split
  · split
    · exact valid_grid_carve_mini_maze hst2 s _ _ _ _ _
    · exact hst2
  · exact hst2

theorem valid_grid_maze_base_loop {s : RSrc} :
    ∀ (fuel pos : Nat) (visited : Finset (Int × Int)) (stack : List (Int × Int)) (g : Grid)
      (res : Grid × Nat), valid_grid g → maze_base_loop s fuel pos visited stack g = some res →
      valid_grid res.1
  | 0, _, _, _, _, _, _, heq => by cases heq
  | fuel + 1, pos, visited, stack, g, res, hg, heq => by
    match stack with
    | [] =>
      simp only [maze_base_loop, Option.some.injEq] at heq
      rw [← heq]
      exact hg
    | (x, y) :: rest =>
      simp only [maze_base_loop] at heq
      split at heq
      · exact valid_grid_maze_base_loop fuel pos visited rest g res hg heq
      · simp only [rand_below] at heq
        obtain ⟨nx, ny, dx, dy⟩ :=
          (base_neighbors visited x y).getD
            (s pos % (base_neighbors visited x y).length) (0, 0, 0, 0)
        exact valid_grid_maze_base_loop fuel (pos + 1) _ _ _ res
          (valid_grid_set_cell (valid_grid_set_cell hg valid_cell_floor _ _) valid_cell_floor _ _)
          heq

theorem valid_grid_generate_maze_base {g : Grid} (hg : valid_grid g) (s : RSrc) (pos : Nat) :
    valid_grid (generate_maze_base s pos g).1 := by
  unfold generate_maze_base maze_base_opt
  simp only [rand_below, set_cell_i]
  apply option_getD_valid
  · intro r hr
    exact valid_grid_maze_base_loop _ _ _ _ _ _
      (valid_grid_set_cell hg valid_cell_floor _ _) hr
  · exact hg

theorem valid_grid_wall_first_neighbor {g : Grid} (hg : valid_grid g) :
    ∀ (l : List (Int × Int)), valid_grid (wall_first_neighbor g l)
  | [] => hg
  | (ny, nx) :: rest => by
    simp only [wall_first_neighbor]
    split
    · exact valid_grid_set_cell hg valid_cell_wall _ _
    · exact valid_grid_wall_first_neighbor hg rest

theorem valid_grid_ensure {g : Grid} (hg : valid_grid g) (s : RSrc) (pos : Nat) :
    valid_grid (ensure_floor_percentage_range s pos g).1 := by
  unfold ensure_floor_percentage_range
  dsimp only
  split
  · apply foldl_preserve (fun st : Grid × Nat => valid_grid st.1) _ _ _ _ hg
    intro st b hst
    obtain ⟨g1, pos1⟩ := st
    simp only [rand_int, rand_chance]
    split
    · apply foldl_preserve valid_grid _ _ _ _ hst
      intro g2 dx h2
      split
      · exact valid_grid_set_cell h2 valid_cell_floor _ _
      · exact h2
    · apply foldl_preserve valid_grid _ _ _ _ hst
      intro g2 dy h2
      split
      · exact valid_grid_set_cell h2 valid_cell_floor _ _
      · exact h2
  · split
    · apply foldl_preserve (fun st : Grid × Nat => valid_grid st.1) _ _ _ _ hg
      intro st b hst
      obtain ⟨g1, pos1⟩ := st
      simp only [rand_int, rand_chance]
      split
      · split
        · exact valid_grid_wall_first_neighbor
            (valid_grid_set_cell hst valid_cell_wall _ _) _
        · exact valid_grid_set_cell hst valid_cell_wall _ _
      · exact hst
    · exact hg

theorem valid_grid_initial : valid_grid initial_grid := by
  intro row hrow c hc
  rw [List.eq_of_mem_replicate hrow] at hc
  rw [List.eq_of_mem_replicate hc]
  exact valid_cell_wall

theorem get_cell_valid {g : Grid} (hg : valid_grid g) (y x : Nat) :
    valid_cell (get_cell g y x) := by
  unfold get_cell
  rcases getD_mem_or_eq (g.getD y []) x WALL with h2 | h2
  · rcases getD_mem_or_eq g y [] with h | h
    · exact hg _ h _ h2
    · rw [h] at h2
      cases h2
  · rw [h2]
    exact valid_cell_wall

theorem get_cell_initial (y x : Nat) : get_cell initial_grid y x = WALL := by
  unfold get_cell
  rcases getD_mem_or_eq initial_grid y [] with h | h
  · rw [List.eq_of_mem_replicate h]
    rcases getD_mem_or_eq (List.replicate 128 WALL) x WALL with h2 | h2
    · exact List.eq_of_mem_replicate h2
    · exact h2
  · rw [h]
    rfl

theorem valid_grid_generate_maze (s : RSrc) (pos ctr : Nat) :
    valid_grid (generate_maze s pos ctr).1.grid := by
  unfold generate_maze
  simp only [rand_below, rand_int]
  by_cases h0 : s pos % 3 = 0
  · simp only [if_pos h0]
    rcases hv : generate_varied_rooms s (pos + 1 + 1) initial_grid
        (10 + s (pos + 1) % (18 - 10)) with ⟨g1, rooms1, pos1⟩
    rcases hc : connect_rooms_naturally s pos1 g1 rooms1 with ⟨g2, pos2⟩
    rcases ha : add_random_corridors s pos2 g2 with ⟨g3, pos3⟩
    rcases he : ensure_floor_percentage_range s pos3 g3 with ⟨g4, pos4⟩
    have hv1 : valid_grid g1 := by
      have := valid_grid_varied_rooms valid_grid_initial s (pos + 1 + 1)
        (10 + s (pos + 1) % (18 - 10))
      rwa [hv] at this
    have hc2 : valid_grid g2 := by
      have := valid_grid_connect_rooms hv1 s pos1 rooms1
      rwa [hc] at this
    have ha3 : valid_grid g3 := by
      have := valid_grid_add_random_corridors hc2 s pos2
      rwa [ha] at this
    have he4 : valid_grid g4 := by
      have := valid_grid_ensure ha3 s pos3
      rwa [he] at this
    exact he4
  · simp only [if_neg h0]
    by_cases h1 : s pos % 3 = 1
    · simp only [if_pos h1]
      rcases hb : generate_maze_base s (pos + 1) initial_grid with ⟨g1, pos1⟩
      rcases hr : carve_rooms_in_maze s (pos1 + 1) g1 (4 + s pos1 % (8 - 4)) with ⟨g2, pos2⟩
      rcases he : ensure_floor_percentage_range s pos2 g2 with ⟨g3, pos3⟩
      have hb1 : valid_grid g1 := by
        have := valid_grid_generate_maze_base valid_grid_initial s (pos + 1)
        rwa [hb] at this
      have hr2 : valid_grid g2 := by
        have := valid_grid_carve_rooms_in_maze hb1 s (pos1 + 1) (4 + s pos1 % (8 - 4))
        rwa [hr] at this
      have he3 : valid_grid g3 := by
        have := valid_grid_ensure hr2 s pos2
        rwa [he] at this
      exact he3
    · simp only [if_neg h1]
      rcases hv : generate_varied_rooms s (pos + 1 + 1) initial_grid
          (6 + s (pos + 1) % (12 - 6)) with ⟨g1, rooms1, pos1⟩
      rcases hf : fill_empty_areas_with_maze s pos1 g1 with ⟨g2, pos2⟩
      rcases he : ensure_floor_percentage_range s pos2 g2 with ⟨g3, pos3⟩
      have hv1 : valid_grid g1 := by
        have := valid_grid_varied_rooms valid_grid_initial s (pos + 1 + 1)
          (6 + s (pos + 1) % (12 - 6))
        rwa [hv] at this
      have hf2 : valid_grid g2 := by
        have := valid_grid_fill_empty hv1 s pos1
        rwa [hf] at this
      have he3 : valid_grid g3 := by
        have := valid_grid_ensure hf2 s pos2
        rwa [he] at this
      exact he3

/-! ## Termination of the backtracker loop (claim C10) -/

theorem card_all_cells : all_cells.card = 16384 := by
  unfold all_cells
  rw [Finset.card_product]
  simp [Int.card_Icc]

theorem base_neighbors_mem {visited : Finset (Int × Int)} {x y : Int}
    {t : Int × Int × Int × Int} (ht : t ∈ base_neighbors visited x y) :
    0 ≤ t.1 ∧ t.1 < 128 ∧ 0 ≤ t.2.1 ∧ t.2.1 < 128 ∧ (t.1, t.2.1) ∉ visited := by
  unfold base_neighbors at ht
  rcases List.mem_filterMap.1 ht with ⟨d, _, hd⟩
  dsimp only at hd
  split at hd
  · rename_i hcond
    cases hd
    exact hcond
  · cases hd

theorem sdiff_insert_card_lt {visited : Finset (Int × Int)} {p : Int × Int}
    (hp : p ∈ all_cells) (hnv : p ∉ visited) :
    (all_cells \ insert p visited).card < (all_cells \ visited).card := by
  have hin : p ∈ all_cells \ visited := Finset.mem_sdiff.2 ⟨hp, hnv⟩
  have heq : all_cells \ insert p visited = (all_cells \ visited).erase p := by
    ext q
    simp only [Finset.mem_sdiff, Finset.mem_insert, Finset.mem_erase]
    tauto
  rw [heq]
  exact Finset.card_erase_lt_of_mem hin

theorem maze_base_loop_some (s : RSrc) :
    ∀ (fuel pos : Nat) (visited : Finset (Int × Int)) (stack : List (Int × Int)) (g : Grid),
      2 * (all_cells \ visited).card + stack.length < fuel →
      (maze_base_loop s fuel pos visited stack g).isSome = true
  | 0, _, _, _, _, hm => absurd hm (Nat.not_lt_zero _)
  | fuel + 1, pos, visited, stack, g, hm => by
    match stack with
    | [] => rfl
    | (x, y) :: rest =>
      simp only [maze_base_loop]
      split
      · apply maze_base_loop_some s fuel pos visited rest g
        simp only [List.length_cons] at hm
        omega
      · rename_i hne
        simp only [rand_below]
        have hlen : 0 < (base_neighbors visited x y).length := Nat.pos_of_ne_zero hne
        have hidx : s pos % (base_neighbors visited x y).length <
            (base_neighbors visited x y).length := Nat.mod_lt _ hlen
        rcases hch : (base_neighbors visited x y).getD
            (s pos % (base_neighbors visited x y).length) (0, 0, 0, 0) with ⟨nx, ny, dx, dy⟩
        have hmem : (nx, ny, dx, dy) ∈ base_neighbors visited x y := by
          rw [← hch, List.getD_eq_getElem _ _ hidx]
          exact List.getElem_mem hidx
        obtain ⟨hnx0, hnx1, hny0, hny1, hnv⟩ := base_neighbors_mem hmem
        dsimp only at hnx0 hnx1 hny0 hny1 hnv
        have hcell : (nx, ny) ∈ all_cells := by
          unfold all_cells
          rw [Finset.mem_product]
          exact ⟨Finset.mem_Icc.2 ⟨hnx0, by omega⟩, Finset.mem_Icc.2 ⟨hny0, by omega⟩⟩
        have hlt := sdiff_insert_card_lt hcell hnv
        dsimp only
        apply maze_base_loop_some s fuel
        simp only [List.length_cons] at hm ⊢
        omega

/-- C10: the recursive-backtracking carving loop of `_generate_maze_base`
terminates for every start position and every draw sequence: run on the
sufficient fuel `maze_fuel`, it always returns a result (each iteration
either visits a new in-bounds lattice cell or pops the stack, so twice the
number of unvisited cells plus the stack height strictly decreases). -/
theorem c10_backtracker_terminates (s : RSrc) (pos : Nat) (g : Grid) :
    (maze_base_opt s pos g).isSome = true := by
  unfold maze_base_opt
  simp only [rand_below]
  apply maze_base_loop_some
  have h1 : (all_cells \
      {(((s pos % 63 * 2 : Nat) : Int), ((s (pos + 1) % 63 * 2 : Nat) : Int))}).card
      ≤ all_cells.card := Finset.card_le_card Finset.sdiff_subset
  rw [card_all_cells] at h1
  unfold maze_fuel
  simp only [List.length_cons, List.length_nil]
  omega

/-- C8: every cell of the grid holds exactly one of the two values `FLOOR`
or `WALL` throughout generation: the grid is created fully populated with
`WALL` (first conjunct), and since every carving and normalization
operation writes only `FLOOR` or `WALL` (the preservation lemmas above),
the grid produced by `generate_maze` satisfies the invariant at every cell
(second conjunct), for every draw sequence, cursor and counter. -/
theorem c8_cells_binary (s : RSrc) (pos ctr y x : Nat) :
    get_cell initial_grid y x = WALL ∧
    (get_cell (generate_maze s pos ctr).1.grid y x = FLOOR ∨
     get_cell (generate_maze s pos ctr).1.grid y x = WALL) :=
  ⟨get_cell_initial y x, get_cell_valid (valid_grid_generate_maze s pos ctr) y x⟩

/-- C6: maze generation is deterministic in the seed. In this embedding
the seeded `RandomState` is the oracle stream, the generator's only source
of randomness: two generators running on equal streams produce identical
maze lists (grids and names) in the same order. -/
theorem c6_seed_determinism (s1 s2 : RSrc) (n : Nat) (h : ∀ i, s1 i = s2 i) :
    generate_mazes s1 n = generate_mazes s2 n := by
  have hs : s1 = s2 := funext h
  rw [hs]

theorem c6_seed_determinism_witness :
    (∀ i, oracleB i = oracleB i) ∧ generate_mazes oracleB 2 = generate_mazes oracleB 2 :=
  ⟨fun _ => rfl, c6_seed_determinism oracleB oracleB 2 (fun _ => rfl)⟩

/-- C9: when the maze directory is missing (`none`) or its `*.npy` glob is
empty (`some []`), `subsample_tiles_command` reports the error and returns
early: no output object is produced on either path (and, the embedding
being total, no exception is raised). -/
theorem c9_missing_input_early_return (stride : Nat) :
    subsample_tiles_command none stride = (none, true) ∧
    subsample_tiles_command (some []) stride = (none, true) :=
  ⟨rfl, rfl⟩

/-- C1 (counterexample): a full `generate_maze` run (hybrid strategy, eleven
rooms totalling 11141 floor cells) whose final floor fraction
`11141 / 16384` is below `0.68`: the draw sequence `oracleA` puts the
pre-normalization count one cell under the lower threshold, where the
source computes `needed = int(0.12) = 0` and the normalizer changes
nothing, so the claimed band `[0.68, 0.75]` fails. -/
theorem c1_floor_band_counterexample :
    ¬ (68 * 16384 ≤ 100 * floor_count (generate_maze oracleA 0 0).1.grid ∧
       100 * floor_count (generate_maze oracleA 0 0).1.grid ≤ 75 * 16384) := by
  decide

/-- C1 (amended): the normalization pass keeps the floor fraction inside
`[0.68, 0.75]` whenever the fraction is already inside the band when the
pass starts (it then leaves the grid unchanged); for out-of-band input
grids the single corrective pass may leave the fraction outside the band,
as the counterexample on the full generator shows. -/
theorem c1_floor_band_amended (s : RSrc) (pos : Nat) (g : Grid)
    (h1 : 68 * 16384 ≤ 100 * floor_count g) (h2 : 100 * floor_count g ≤ 75 * 16384) :
    (ensure_floor_percentage_range s pos g).1 = g ∧
    68 * 16384 ≤ 100 * floor_count (ensure_floor_percentage_range s pos g).1 ∧
    100 * floor_count (ensure_floor_percentage_range s pos g).1 ≤ 75 * 16384 := by
  have hno : ensure_floor_percentage_range s pos g = (g, pos) := by
    unfold ensure_floor_percentage_range
    dsimp only
    rw [if_neg (by omega), if_neg (by omega)]
  rw [hno]
  exact ⟨rfl, h1, h2⟩

theorem c1_floor_band_amended_witness :
    68 * 16384 ≤ 100 * floor_count grid_band ∧
    100 * floor_count grid_band ≤ 75 * 16384 ∧
    (ensure_floor_percentage_range oracleB 0 grid_band).1 = grid_band :=
  ⟨by decide, by decide, (c1_floor_band_amended oracleB 0 grid_band (by decide) (by decide)).1⟩

/-! ## Tile sampling counts and edge signatures (claims C4, C5) -/

theorem py_range_up_length (stop step : Nat) :
    (py_range_up stop step).length = (stop + step - 1) / step := by
  unfold py_range_up
  rw [List.length_map, List.length_range]

theorem tile_offsets_length (S : Nat) :
    (tile_offsets S).length =
      (py_range_up (128 - 8 + 1) S).length * (py_range_up (128 - 8 + 1) S).length := by
  unfold tile_offsets
  rw [List.length_flatMap]
  have h : List.map (List.length ∘ fun y => List.map (fun x => (x, y)) (py_range_up (128 - 8 + 1) S))
      (py_range_up (128 - 8 + 1) S) =
      List.map (fun _ => (py_range_up (128 - 8 + 1) S).length) (py_range_up (128 - 8 + 1) S) := by
    apply List.map_congr_left
    intro a _
    simp [Function.comp]
  rw [h, List.map_const', List.sum_replicate, smul_eq_mul]

/-- C4: for every grid and every positive stride `S`,
`subsample_maze_to_tiles` returns exactly `(floor((128 - 8) / S) + 1)
squared` tile records (the window loop bounds are fixed, so this holds for
any source grid). -/
theorem c4_tile_count (m : Maze) (S : Nat) (hS : 0 < S) :
    (subsample_maze_to_tiles m S).length = ((128 - 8) / S + 1) ^ 2 := by
  unfold subsample_maze_to_tiles
  rw [List.length_map, List.enum_length, tile_offsets_length]
  have hc : (py_range_up (128 - 8 + 1) S).length = (128 - 8) / S + 1 := by
    rw [py_range_up_length]
    have h1 : 128 - 8 + 1 + S - 1 = 120 + S := by omega
    rw [h1, Nat.add_div_right _ hS]
  rw [hc]
  ring

theorem c4_tile_count_witness :
    0 < 4 ∧ (subsample_maze_to_tiles maze_w 4).length = 961 := by
  refine ⟨by decide, ?_⟩
  rw [c4_tile_count maze_w 4 (by decide)]
  decide

theorem py_range_up_le {e S : Nat} (he : e ∈ py_range_up (128 - 8 + 1) S) : e ≤ 120 := by
  unfold py_range_up at he
  rcases List.mem_map.1 he with ⟨k, hk, rfl⟩
  rw [List.mem_range] at hk
  rcases Nat.eq_zero_or_pos S with hS | hS
  · subst hS
    simp
  · have h1 : 128 - 8 + 1 + S - 1 = 120 + S := by omega
    rw [h1, Nat.add_div_right _ hS] at hk
    have h2 : k ≤ 120 / S := by omega
    calc k * S ≤ 120 / S * S := Nat.mul_le_mul_right S h2
      _ ≤ 120 := Nat.div_mul_le_self _ _

theorem extract_pattern_length {g : Grid} (hg : g.length = 128) {y : Nat} (hy : y ≤ 120)
    (x : Nat) : (extract_pattern g y x).length = 8 := by
  unfold extract_pattern
  rw [List.length_map, List.length_take, List.length_drop, hg]
  omega

theorem extract_pattern_row_length {g : Grid} (hrows : ∀ r ∈ g, r.length = 128) {y x : Nat}
    (hx : x ≤ 120) : ∀ r ∈ extract_pattern g y x, r.length = 8 := by
  intro r hr
  unfold extract_pattern at hr
  rcases List.mem_map.1 hr with ⟨r0, hr0, rfl⟩
  have hr0g : r0 ∈ g := List.mem_of_mem_drop (List.mem_of_mem_take hr0)
  rw [List.length_take, List.length_drop, hrows r0 hr0g]
  omega

theorem headD_eq_getD {α : Type} (l : List α) (d : α) : l.headD d = l.getD 0 d := by
  cases l <;> rfl

theorem getD7_eq_getLastD {α : Type} (l : List α) (d : α) (h : l.length = 8) :
    l.getD 7 d = l.getLastD d := by
  rw [List.getLastD_eq_getLast?, List.getLast?_eq_getElem?, h, List.getD_eq_getElem?_getD]

/-- C5: for every tile emitted by `subsample_maze_to_tiles` from a
well-formed 128x128 grid, the stored edge signatures equal the derived
ones: `north` is the first pattern row, `south` the last pattern row,
`west` the first element of each row and `east` the last element of each
row (the source computes `south` and `east` through the literal index `7`,
which coincides with the last position because every pattern is 8x8). -/
theorem c5_edge_signatures (nm : String) (g : Grid) (S : Nat) (t : Tile)
    (hwf : grid_wf g) (ht : t ∈ subsample_maze_to_tiles { name := nm, grid := g } S) :
    t.north = t.pattern.headD [] ∧
    t.south = t.pattern.getLastD [] ∧
    t.west = t.pattern.map (fun r => r.headD WALL) ∧
    t.east = t.pattern.map (fun r => r.getLastD WALL) := by
  obtain ⟨hlen, hrows⟩ := hwf
  unfold subsample_maze_to_tiles at ht
  rcases List.mem_map.1 ht with ⟨⟨i, x, y⟩, hp, rfl⟩
  have hxy : (x, y) ∈ tile_offsets S := by
    rw [List.enum_eq_zip_range] at hp
    exact (List.of_mem_zip hp).2
  unfold tile_offsets at hxy
  rcases List.mem_flatMap.1 hxy with ⟨y0, hy0, hx0⟩
  rcases List.mem_map.1 hx0 with ⟨x0, hx1, heq⟩
  cases heq
  have hy : y ≤ 120 := py_range_up_le hy0
  have hx : x ≤ 120 := py_range_up_le hx1
  have hplen : (extract_pattern g y x).length = 8 := extract_pattern_length hlen hy x
  have hprow : ∀ r ∈ extract_pattern g y x, r.length = 8 := extract_pattern_row_length hrows hx
  simp only [mk_tile]
  refine ⟨(headD_eq_getD _ _).symm, getD7_eq_getLastD _ _ hplen, ?_, ?_⟩
  · apply List.map_congr_left
    intro r _
    exact (headD_eq_getD r WALL).symm
  · apply List.map_congr_left
    intro r hr
    exact getD7_eq_getLastD r WALL (hprow r hr)

theorem c5_edge_signatures_witness :
    grid_wf initial_grid ∧
    mk_tile "w" 0 (0, 0) initial_grid ∈ subsample_maze_to_tiles maze_w 120 ∧
    ((mk_tile "w" 0 (0, 0) initial_grid).north
        = (mk_tile "w" 0 (0, 0) initial_grid).pattern.headD [] ∧
      (mk_tile "w" 0 (0, 0) initial_grid).south
        = (mk_tile "w" 0 (0, 0) initial_grid).pattern.getLastD [] ∧
      (mk_tile "w" 0 (0, 0) initial_grid).west
        = (mk_tile "w" 0 (0, 0) initial_grid).pattern.map (fun r => r.headD WALL) ∧
      (mk_tile "w" 0 (0, 0) initial_grid).east
        = (mk_tile "w" 0 (0, 0) initial_grid).pattern.map (fun r => r.getLastD WALL)) :=
  ⟨⟨by decide, by decide⟩, by decide,
    c5_edge_signatures "w" initial_grid 120 (mk_tile "w" 0 (0, 0) initial_grid)
      ⟨by decide, by decide⟩ (by decide)⟩

/-! ## Compatibility matrix (claims C2, C3) -/

theorem dict_getD_cons_pos {κ α : Type} [DecidableEq κ] (m : List (κ × α)) (k : κ) (v d : α) :
    dict_getD ((k, v) :: m) k d = v := by
  simp [dict_getD, dict_get]

theorem dict_getD_cons_neg {κ α : Type} [DecidableEq κ] (m : List (κ × α)) {k k2 : κ}
    (h : k ≠ k2) (v : α) (d : α) : dict_getD ((k, v) :: m) k2 d = dict_getD m k2 d := by
  simp [dict_getD, dict_get, h]

theorem dict_get_cons_pos {κ α : Type} [DecidableEq κ] (m : List (κ × α)) (k : κ) (v : α) :
    dict_get ((k, v) :: m) k = some v := by
  simp [dict_get]

theorem dict_get_cons_neg {κ α : Type} [DecidableEq κ] (m : List (κ × α)) {k k2 : κ}
    (h : k ≠ k2) (v : α) : dict_get ((k, v) :: m) k2 = dict_get m k2 := by
  simp [dict_get, h]

theorem edge_index_getD (d : Dir) :
    ∀ (ts : List Tile) (acc : List (List Nat × List String)) (e : List Nat),
      dict_getD (ts.foldl
          (fun m t => (edge_of t d, dict_getD m (edge_of t d) [] ++ [t.name]) :: m) acc) e []
        = dict_getD acc e [] ++ (ts.filter (fun t => decide (edge_of t d = e))).map Tile.name
  | [], acc, e => by
    simp
  | t :: ts, acc, e => by
    rw [List.foldl_cons, edge_index_getD d ts]
    by_cases h : edge_of t d = e
    · subst h
      rw [dict_getD_cons_pos]
      rw [List.append_assoc, List.singleton_append]
      simp
    · rw [dict_getD_cons_neg _ h]
      simp only [List.filter_cons, decide_eq_true_eq, if_neg h]

theorem build_edge_index_getD (tiles : List Tile) (d : Dir) (e : List Nat) :
    dict_getD (build_edge_index tiles d) e []
      = (tiles.filter (fun t => decide (edge_of t d = e))).map Tile.name := by
  unfold build_edge_index
  rw [edge_index_getD]
  simp [dict_getD, dict_get]

theorem compat_fold_get (idxN idxS idxE idxW : List (List Nat × List String)) :
    ∀ (ts : List Tile), (ts.map Tile.name).Nodup →
      ∀ (acc : List ((String × Dir) × List String)) (A : Tile) (d : Dir), A ∈ ts →
      dict_get (ts.foldl (fun m t =>
          ((t.name, Dir.west), dict_getD idxE (edge_of t Dir.west) []) ::
          ((t.name, Dir.east), dict_getD idxW (edge_of t Dir.east) []) ::
          ((t.name, Dir.south), dict_getD idxN (edge_of t Dir.south) []) ::
          ((t.name, Dir.north), dict_getD idxS (edge_of t Dir.north) []) :: m) acc) (A.name, d)
        = some (compat_entry_value idxN idxS idxE idxW A d) := by
  intro ts
  induction ts using List.reverseRecOn with
  | nil =>
    intro _ acc A d hA
    cases hA
  | append_singleton ts t ih =>
    intro hnd acc A d hA
    rw [List.foldl_append, List.foldl_cons, List.foldl_nil]
    rw [List.map_append, List.nodup_append] at hnd
    obtain ⟨hnd1, _, hdisj⟩ := hnd
    rcases List.mem_append.1 hA with hA1 | hA1
    · have hne : t.name ≠ A.name := by
        intro h
        exact hdisj (List.mem_map_of_mem Tile.name hA1) (by simp [h])
      have hkey : ∀ d2 : Dir, (t.name, d2) ≠ (A.name, d) := by
        intro d2 h
        exact hne (congrArg Prod.fst h)
      rw [dict_get_cons_neg _ (hkey Dir.west), dict_get_cons_neg _ (hkey Dir.east),
        dict_get_cons_neg _ (hkey Dir.south), dict_get_cons_neg _ (hkey Dir.north)]
      exact ih hnd1 acc A d hA1
    · have hAt : A = t := by
        simpa using hA1
      subst hAt
      cases d
      · rw [dict_get_cons_neg _ (by simp), dict_get_cons_neg _ (by simp),
          dict_get_cons_neg _ (by simp), dict_get_cons_pos]
        rfl
      · rw [dict_get_cons_neg _ (by simp), dict_get_cons_neg _ (by simp), dict_get_cons_pos]
        rfl
      · rw [dict_get_cons_neg _ (by simp), dict_get_cons_pos]
        rfl
      · rw [dict_get_cons_pos]
        rfl

theorem compat_matrix_get (tiles : List Tile) (A : Tile) (d : Dir)
    (hnd : (tiles.map Tile.name).Nodup) (hA : A ∈ tiles) :
    dict_get (compute_compatibility_matrix tiles) (A.name, d) =
      some ((tiles.filter
        (fun B => decide (edge_of B (opposite d) = edge_of A d))).map Tile.name) := by
  unfold compute_compatibility_matrix
  rw [compat_fold_get (build_edge_index tiles Dir.north) (build_edge_index tiles Dir.south)
    (build_edge_index tiles Dir.east) (build_edge_index tiles Dir.west) tiles hnd [] A d hA]
  congr 1
  cases d <;> (simp only [compat_entry_value, opposite]; rw [build_edge_index_getD])

theorem opposite_opposite (d : Dir) : opposite (opposite d) = d := by
  cases d <;> rfl

/-- C2: for every pooled tile `A` (distinct tile names) and direction `d`,
the list stored by `compute_compatibility_matrix` under key `(A, d)` is
exactly the names of the pooled tiles whose edge on the side opposite `d`
equals `A`'s edge on side `d`, in pool order: no omissions and no entries
from any other edge value. -/
theorem c2_compat_exact (tiles : List Tile) (A : Tile) (d : Dir)
    (hnd : (tiles.map Tile.name).Nodup) (hA : A ∈ tiles) :
    dict_get (compute_compatibility_matrix tiles) (A.name, d) =
      some ((tiles.filter
        (fun B => decide (edge_of B (opposite d) = edge_of A d))).map Tile.name) :=
  compat_matrix_get tiles A d hnd hA

theorem c2_compat_exact_witness :
    ([tile_a, tile_b].map Tile.name).Nodup ∧ tile_a ∈ [tile_a, tile_b] ∧
    dict_get (compute_compatibility_matrix [tile_a, tile_b]) (tile_a.name, Dir.north) =
      some (([tile_a, tile_b].filter
        (fun B => decide (edge_of B (opposite Dir.north) = edge_of tile_a Dir.north))).map
          Tile.name) :=
  ⟨by decide, by decide, c2_compat_exact [tile_a, tile_b] tile_a Dir.north (by decide) (by decide)⟩

/-- C3: compatibility is symmetric: whenever `B`'s name appears in the list
stored under `(A, d)`, `A`'s name appears in the list stored under
`(B, opposite d)` (so north/south pairs and east/west pairs mirror each
other), for every output of `compute_compatibility_matrix` over a pool with
distinct tile names. -/
theorem c3_compat_symmetric (tiles : List Tile) (A B : Tile) (d : Dir)
    (hnd : (tiles.map Tile.name).Nodup) (hA : A ∈ tiles) (hB : B ∈ tiles)
    (hmem : B.name ∈ compat_getD (compute_compatibility_matrix tiles) (A.name, d)) :
    A.name ∈ compat_getD (compute_compatibility_matrix tiles) (B.name, opposite d) := by
  unfold compat_getD at hmem ⊢
  rw [compat_matrix_get tiles A d hnd hA] at hmem
  rw [compat_matrix_get tiles B (opposite d) hnd hB]
  simp only [Option.getD_some] at hmem ⊢
  rcases List.mem_map.1 hmem with ⟨B2, hB2, hname⟩
  rw [List.mem_filter] at hB2
  obtain ⟨hB2mem, hB2edge⟩ := hB2
  have hBB : B2 = B := List.inj_on_of_nodup_map hnd hB2mem hB hname
  subst hBB
  have he : edge_of B2 (opposite d) = edge_of A d := of_decide_eq_true hB2edge
  apply List.mem_map.2
  refine ⟨A, List.mem_filter.2 ⟨hA, ?_⟩, rfl⟩
  apply decide_eq_true
  rw [opposite_opposite]
  exact he.symm

theorem c3_compat_symmetric_witness :
    ([tile_a, tile_b].map Tile.name).Nodup ∧ tile_a ∈ [tile_a, tile_b] ∧
    tile_b ∈ [tile_a, tile_b] ∧
    tile_b.name ∈ compat_getD (compute_compatibility_matrix [tile_a, tile_b])
      (tile_a.name, Dir.north) ∧
    tile_a.name ∈ compat_getD (compute_compatibility_matrix [tile_a, tile_b])
      (tile_b.name, opposite Dir.north) :=
  ⟨by decide, by decide, by decide, by decide,
    c3_compat_symmetric [tile_a, tile_b] tile_a tile_b Dir.north
      (by decide) (by decide) (by decide) (by decide)⟩

/-! ## End-to-end subsample run counts (claim C7) -/

theorem string_append_inj {p1 p2 s1 s2 : String} (hlen : p1.length = p2.length)
    (h : p1 ++ s1 = p2 ++ s2) : p1 = p2 ∧ s1 = s2 := by
  have hd : p1.data ++ s1.data = p2.data ++ s2.data := by
    rw [← String.data_append, ← String.data_append, h]
  have h2 := List.append_inj hd hlen
  exact ⟨String.ext h2.1, String.ext h2.2⟩

theorem digitChar_inj : ∀ a < 10, ∀ b < 10, Nat.digitChar a = Nat.digitChar b → a = b := by
  decide

theorem format4_inj {i j : Nat} (hi : i < 10000) (hj : j < 10000)
    (h : format4 i = format4 j) : i = j := by
  unfold format4 at h
  rw [if_pos hi, if_pos hj] at h
  injection h with hl
  simp only [List.cons.injEq, and_true] at hl
  obtain ⟨h1, h2, h3, h4⟩ := hl
  have e1 := digitChar_inj _ (by omega) _ (by omega) h1
  have e2 := digitChar_inj _ (by omega) _ (by omega) h2
  have e3 := digitChar_inj _ (by omega) _ (by omega) h3
  have e4 := digitChar_inj _ (by omega) _ (by omega) h4
  omega

theorem subsample_names (nm : String) (g : Grid) (S : Nat) :
    (subsample_maze_to_tiles { name := nm, grid := g } S).map Tile.name
      = (List.range (tile_offsets S).length).map (fun i => nm ++ "_tile_" ++ format4 i) := by
  unfold subsample_maze_to_tiles
  rw [List.map_map]
  have h : (Tile.name ∘ fun p : Nat × (Nat × Nat) => mk_tile nm p.1 p.2 g)
      = (fun i => nm ++ "_tile_" ++ format4 i) ∘ Prod.fst := rfl
  rw [h, ← List.map_map, List.enum_map_fst]

/-- The four compatibility keys contributed by one tile, in stored order. -/
def key_block (t : Tile) : List (String × Dir) :=
  [(t.name, Dir.west), (t.name, Dir.east), (t.name, Dir.south), (t.name, Dir.north)]

theorem compat_keys (idxN idxS idxE idxW : List (List Nat × List String)) :
    ∀ (ts : List Tile) (acc : List ((String × Dir) × List String)),
      (ts.foldl (fun m t =>
          ((t.name, Dir.west), dict_getD idxE (edge_of t Dir.west) []) ::
          ((t.name, Dir.east), dict_getD idxW (edge_of t Dir.east) []) ::
          ((t.name, Dir.south), dict_getD idxN (edge_of t Dir.south) []) ::
          ((t.name, Dir.north), dict_getD idxS (edge_of t Dir.north) []) :: m) acc).map Prod.fst
        = ts.reverse.flatMap key_block ++ acc.map Prod.fst
  | [], acc => by simp
  | t :: ts, acc => by
    rw [List.foldl_cons, compat_keys idxN idxS idxE idxW ts]
    rw [List.reverse_cons, List.flatMap_append]
    simp [key_block]

theorem key_block_nodup : ∀ (ts : List Tile), (ts.map Tile.name).Nodup →
    (ts.flatMap key_block).Nodup
  | [], _ => by simp
  | t :: ts, hnd => by
    rw [List.map_cons, List.nodup_cons] at hnd
    obtain ⟨hmem, hnd1⟩ := hnd
    rw [List.flatMap_cons]
    apply List.Nodup.append
    · simp [key_block]
    · exact key_block_nodup ts hnd1
    · intro k hk1 hk2
      have hkname : k.1 = t.name := by
        simp only [key_block, List.mem_cons, List.not_mem_nil, or_false] at hk1
        rcases hk1 with h | h | h | h <;> rw [h]
      rcases List.mem_flatMap.1 hk2 with ⟨u, hu, hku⟩
      have hkuname : k.1 = u.name := by
        simp only [key_block, List.mem_cons, List.not_mem_nil, or_false] at hku
        rcases hku with h | h | h | h <;> rw [h]
      apply hmem
      rw [← hkname, hkuname]
      exact List.mem_map_of_mem Tile.name hu

theorem key_block_length : ∀ (ts : List Tile), (ts.flatMap key_block).length = 4 * ts.length
  | [] => rfl
  | t :: ts => by
    rw [List.flatMap_cons, List.length_append, key_block_length ts]
    simp [key_block]
    omega

theorem subsample_length_441 (nm : String) (g : Grid) :
    (subsample_maze_to_tiles { name := nm, grid := g } 6).length = 441 := by
  unfold subsample_maze_to_tiles
  rw [List.length_map, List.enum_length]
  decide

theorem two_maze_names_nodup (g0 g1 : Grid) :
    ((subsample_maze_to_tiles { name := "maze_000", grid := g0 } 6 ++
      subsample_maze_to_tiles { name := "maze_001", grid := g1 } 6).map Tile.name).Nodup := by
  rw [List.map_append, subsample_names, subsample_names]
  have hlen : (tile_offsets 6).length = 441 := by decide
  rw [hlen]
  apply List.Nodup.append
  · apply List.Nodup.map_on ?_ (List.nodup_range 441)
    intro i hi j hj h
    exact format4_inj (by have := List.mem_range.1 hi; omega)
      (by have := List.mem_range.1 hj; omega) (string_append_inj rfl h).2
  · apply List.Nodup.map_on ?_ (List.nodup_range 441)
    intro i hi j hj h
    exact format4_inj (by have := List.mem_range.1 hi; omega)
      (by have := List.mem_range.1 hj; omega) (string_append_inj rfl h).2
  · intro a ha hb
    rcases List.mem_map.1 ha with ⟨i, hi, rfl⟩
    rcases List.mem_map.1 hb with ⟨j, hj, hji⟩
    exact absurd (string_append_inj (by decide) hji).1 (by decide)

/-- C7: pooling exactly the two 128x128 grids `maze_000` and `maze_001` at
stride 6 yields an output whose `tile_count` is `2 * 21 ^ 2 = 882` and
whose compatibility map has exactly `tile_count * 4` distinct keys, one per
pooled tile and direction (this depends only on the loop bounds and the
distinctness of the generated tile names, so it holds for arbitrary grid
contents). -/
theorem c7_two_maze_run_counts (g0 g1 : Grid) :
    (subsample_tiles_run
      [{ name := "maze_000", grid := g0 }, { name := "maze_001", grid := g1 }] 6).tile_count
        = 882 ∧
    ((subsample_tiles_run
      [{ name := "maze_000", grid := g0 }, { name := "maze_001", grid := g1 }]
        6).compatibility.map Prod.fst).dedup.length =
      (subsample_tiles_run
        [{ name := "maze_000", grid := g0 }, { name := "maze_001", grid := g1 }]
          6).tile_count * 4 := by
  have hnd := two_maze_names_nodup g0 g1
  have hfold : subsample_tiles_run
      [{ name := "maze_000", grid := g0 }, { name := "maze_001", grid := g1 }] 6 =
      { tiles := subsample_maze_to_tiles { name := "maze_000", grid := g0 } 6 ++
          subsample_maze_to_tiles { name := "maze_001", grid := g1 } 6
        compatibility := compute_compatibility_matrix
          (subsample_maze_to_tiles { name := "maze_000", grid := g0 } 6 ++
            subsample_maze_to_tiles { name := "maze_001", grid := g1 } 6)
        tile_count := (subsample_maze_to_tiles { name := "maze_000", grid := g0 } 6 ++
          subsample_maze_to_tiles { name := "maze_001", grid := g1 } 6).length
        tile_size := 8
        stride_used := 6
        source_mazes := 2 } := by
    unfold subsample_tiles_run
    dsimp only
    rw [List.foldl_cons, List.foldl_cons, List.foldl_nil, List.nil_append]
    rfl
  rw [hfold]
  dsimp only
  constructor
  · rw [List.length_append, subsample_length_441, subsample_length_441]
  · unfold compute_compatibility_matrix
    rw [compat_keys]
    simp only [List.map_nil, List.append_nil]
    rw [List.dedup_eq_self.2, key_block_length, List.length_reverse, Nat.mul_comm]
    apply key_block_nodup
    rw [List.map_reverse]
    exact List.nodup_reverse.2 hnd
